import Mathlib

/-!
Verification of the viseme synchronization engine of kaiser-echo.

The definitions below are a shallow embedding of the TypeScript sources:
  - src/hooks/useAudioAnalyzer.ts   (audio-driven mouth-position classifier)
  - src/utils/phonemeSync.ts        (phoneme timeline engine / sync manager)
  - src/components/RealisticAvatar.tsx (cross-fade transition progress)
Machine numbers are modelled by Nat (millisecond times, durations) and
by the rationals (audio features, blend progress); JS strings by String
or List Char; the manager's mutable fields by explicit state records,
and the host's setTimeout queue by an explicit list of timer ids.
-/

namespace KaiserEcho

/-! ### Audio-driven classifier (src/hooks/useAudioAnalyzer.ts) -/

/-- The 6 key mouth positions of the audio-driven path. -/
inductive MouthPosition where
  | X | A | B | C | E | H
deriving DecidableEq

/-- AudioFeatures record: amplitude (0-1 volume), dominant frequency in Hz,
and the speaking flag. -/
structure AudioFeatures where
  amplitude : ℚ
  frequency : ℚ
  isSpeaking : Bool
deriving DecidableEq

/-- getMouthPositionFromAudio of useAudioAnalyzer.ts: the cascade of
threshold tests, in source order. -/
def getMouthPositionFromAudio (f : AudioFeatures) : MouthPosition :=
  if f.isSpeaking = false ∨ f.amplitude < 5/100 then .X
  else if f.amplitude > 6/10 then .B
  else if f.frequency > 2000 then .H
  else if f.frequency > 800 then .A
  else if f.frequency > 200 ∧ f.amplitude > 3/10 then .E
  else if f.amplitude > 15/100 ∧ f.amplitude < 35/100 then .C
  else .A

/-- The ordered rule list exactly as the spec words it (section 4.2 (a)):
rule 4 carries its own upper bound 2000, rule 5 its own band 200-800. -/
def specAudioRuleList (f : AudioFeatures) : MouthPosition :=
  if f.isSpeaking = false ∨ f.amplitude < 5/100 then .X
  else if f.amplitude > 6/10 then .B
  else if f.frequency > 2000 then .H
  else if 800 < f.frequency ∧ f.frequency ≤ 2000 then .A
  else if 200 < f.frequency ∧ f.frequency ≤ 800 ∧ f.amplitude > 3/10 then .E
  else if 15/100 < f.amplitude ∧ f.amplitude < 35/100 then .C
  else .A

/-! ### Phoneme data (src/utils/phonemeSync.ts) -/

/-- The 9 phoneme symbols of usePhonemeDetection / phonemeSync. -/
inductive PhonemeType where
  | X | A | B | C | D | E | F | G | H
deriving DecidableEq

/-- The three coarticulation phases of each phoneme. -/
inductive PhonemeVariation where
  | opening | hold | closing
deriving DecidableEq

/-- One row of the PHONEME_DURATIONS table. -/
structure PhaseDurations where
  opening : Nat
  hold : Nat
  closing : Nat
deriving DecidableEq

/-- The PHONEME_DURATIONS lookup table of phonemeSync.ts. -/
def PHONEME_DURATIONS : PhonemeType → PhaseDurations
  | .X => ⟨30, 40, 30⟩
  | .A => ⟨35, 60, 35⟩
  | .B => ⟨40, 80, 40⟩
  | .C => ⟨25, 50, 25⟩
  | .D => ⟨35, 65, 35⟩
  | .E => ⟨40, 70, 40⟩
  | .F => ⟨30, 60, 30⟩
  | .G => ⟨30, 50, 30⟩
  | .H => ⟨40, 70, 40⟩

/-- Duration of one phase of a phoneme. -/
def phaseDuration (p : PhonemeType) : PhonemeVariation → Nat
  | .opening => (PHONEME_DURATIONS p).opening
  | .hold => (PHONEME_DURATIONS p).hold
  | .closing => (PHONEME_DURATIONS p).closing

/-- The phoneme letter, as used in variation keys. -/
def phonemeLetter : PhonemeType → String
  | .X => "X" | .A => "A" | .B => "B" | .C => "C" | .D => "D"
  | .E => "E" | .F => "F" | .G => "G" | .H => "H"

/-- The phase name, as used in variation keys. -/
def variationName : PhonemeVariation → String
  | .opening => "opening" | .hold => "hold" | .closing => "closing"

/-- The duck-typed variation-key string, e.g. "A-hold". -/
def variationKeyOf (p : PhonemeType) (v : PhonemeVariation) : String :=
  phonemeLetter p ++ "-" ++ variationName v

/-- PhonemeTimelineEntry of phonemeSync.ts. -/
structure PhonemeTimelineEntry where
  phoneme : PhonemeType
  variation : PhonemeVariation
  variationKey : String
  startTime : Nat
  duration : Nat
deriving DecidableEq

/-- The three entries (opening, hold, closing) one phoneme contributes,
starting at time t — the inner forEach of buildTimeline. -/
def phonemeEntries (p : PhonemeType) (t : Nat) : List PhonemeTimelineEntry :=
  [⟨p, .opening, variationKeyOf p .opening, t, (PHONEME_DURATIONS p).opening⟩,
   ⟨p, .hold, variationKeyOf p .hold,
    t + (PHONEME_DURATIONS p).opening, (PHONEME_DURATIONS p).hold⟩,
   ⟨p, .closing, variationKeyOf p .closing,
    t + (PHONEME_DURATIONS p).opening + (PHONEME_DURATIONS p).hold,
    (PHONEME_DURATIONS p).closing⟩]

/-- Total time one phoneme occupies on the timeline. -/
def phonemeSpan (p : PhonemeType) : Nat :=
  (PHONEME_DURATIONS p).opening + (PHONEME_DURATIONS p).hold +
    (PHONEME_DURATIONS p).closing

/-- buildTimeline's outer forEach, with the running currentTime made
explicit. -/
def buildTimelineFrom : List PhonemeType → Nat → List PhonemeTimelineEntry
  | [], _ => []
  | p :: ps, t => phonemeEntries p t ++ buildTimelineFrom ps (t + phonemeSpan p)

/-- buildTimeline of phonemeSync.ts: starts the accumulator at 0. -/
def buildTimeline (ps : List PhonemeType) : List PhonemeTimelineEntry :=
  buildTimelineFrom ps 0

/-- Sum of the durations of a timeline's entries. -/
def totalDuration (es : List PhonemeTimelineEntry) : Nat :=
  (es.map (fun e => e.duration)).sum

/-- getCurrentVariationFromTimeline of phonemeSync.ts: linear scan for the
entry whose half-open interval contains elapsedMs; the JS
`entry?.variationKey || 'X-hold'` falls back to "X-hold" when no entry
matches (or when the key is the falsy empty string). -/
def getCurrentVariationFromTimeline
    (timeline : List PhonemeTimelineEntry) (elapsedMs : Nat) : String :=
  match timeline.find?
      (fun e => decide (e.startTime ≤ elapsedMs ∧
                         elapsedMs < e.startTime + e.duration)) with
  | some e => if e.variationKey = "" then "X-hold" else e.variationKey
  | none => "X-hold"

/-! ### Text processing (generateNaturalMouthSequence / textToPhonemes) -/

/-- JS whitespace test for the split regex. -/
def isWhitespaceChar (c : Char) : Bool :=
  c = ' ' || c = '\t' || c = '\n' || c = '\r'

/-- Accumulator pass behind splitOnWhitespace: cur is the reversed current
chunk, inRun says whether the previous character was part of a whitespace
separator run (so further whitespace is absorbed into the same run). -/
def splitWsAux : List Char → List Char → Bool → List (List Char)
  | [], cur, _ => [cur.reverse]
  | c :: rest, cur, inRun =>
    if isWhitespaceChar c then
      if inRun then splitWsAux rest cur true
      else cur.reverse :: splitWsAux rest [] true
    else splitWsAux rest (c :: cur) false

/-- JS `text.split(/\s+/)`: chunks between maximal whitespace runs, with
empty chunks at the edges when the text starts or ends with whitespace,
and [""] for the empty text. -/
def splitOnWhitespace (s : List Char) : List (List Char) :=
  splitWsAux s [] false

/-- JS `text.toLowerCase()` (ASCII letters; the characters the scanners
test are all ASCII or already lowercase). -/
def toLowerText (s : List Char) : List Char :=
  s.map Char.toLower

/-- `Math.max(1, Math.floor(word.length / 3))` of
generateNaturalMouthSequence. -/
def syllableCount (word : List Char) : Nat :=
  max 1 (word.length / 3)

/-- One consonant-vowel-consonant triple of generateNaturalMouthSequence;
the three pushes are the same on every syllable iteration of a word. -/
def wordMouthTriple (word : List Char) : List PhonemeType :=
  (if word.contains 'm' || word.contains 'b' || word.contains 'p'
   then PhonemeType.C else PhonemeType.A) ::
  (if word.contains 'o' || word.contains 'u' then PhonemeType.E
   else if word.contains 'e' || word.contains 'i' then PhonemeType.H
   else if word.contains 'a' then PhonemeType.B
   else PhonemeType.A) ::
  [PhonemeType.A]

/-- All phonemes one word contributes: the triple repeated once per
syllable. -/
def wordMouthBlock (word : List Char) : List PhonemeType :=
  (List.replicate (syllableCount word) (wordMouthTriple word)).flatten

/-- The outer words.forEach of generateNaturalMouthSequence: X is pushed
after a word only when another word follows. -/
def joinBlocksWithSilence : List (List Char) → List PhonemeType
  | [] => []
  | [w] => wordMouthBlock w
  | w :: v :: rest =>
      wordMouthBlock w ++ PhonemeType.X :: joinBlocksWithSilence (v :: rest)

/-- generateNaturalMouthSequence of phonemeSync.ts. -/
def generateNaturalMouthSequence (text : List Char) : List PhonemeType :=
  joinBlocksWithSilence (splitOnWhitespace (toLowerText text))

/-- One step of the character scanner of textToPhonemes: given the current
character, the lookahead, whether this is the last character of the word,
whether it is the first (index 0), and the word length, produce the pushed
phoneme (none for a skipped silent final e) and whether the next character
is consumed too (the JS `i++` inside the loop). -/
def scanChar (c : Char) (nextChar : Option Char) (isLast isFirst : Bool)
    (wordLen : Nat) : Option PhonemeType × Bool :=
  if c = 'm' ∨ c = 'b' ∨ c = 'p' then (some .C, false)
  else if c = 'f' ∨ c = 'v' then (some .F, false)
  else if c = 't' ∧ nextChar = some 'h' then (some .G, true)
  else if (c = 't' ∨ c = 'd' ∨ c = 'k' ∨ c = 'g') ∧ nextChar ≠ some 'h' then
    (some .D, false)
  else if c = 's' ∨ c = 'z' ∨ c = 'x' ∨ c = 'c' ∨ c = 'j' ∨ c = 'q' then
    (some .F, false)
  else if c = 'l' ∨ c = 'r' then (some .D, false)
  else if c = 'n' then (some .C, false)
  else if c = 'w' then (some .E, false)
  else if c = 'o' ∧ (nextChar = some 'o' ∨ nextChar = some 'u') then
    (some .E, true)
  else if c = 'a' ∧ nextChar = some 'a' then (some .B, true)
  else if c = 'e' ∧ nextChar = some 'e' then (some .H, true)
  else if c = 'a' ∨ c = 'á' ∨ c = 'ä' ∨ c = 'æ' then (some .B, false)
  else if c = 'e' ∨ c = 'é' ∨ c = 'ë' ∨ c = 'ê' then
    (if isLast = true ∧ wordLen > 2 then (none, false) else (some .D, false))
  else if c = 'i' ∨ c = 'í' ∨ c = 'ï' ∨ c = 'î' then (some .H, false)
  else if c = 'o' ∨ c = 'ó' ∨ c = 'ö' ∨ c = 'ô' then (some .E, false)
  else if c = 'u' ∨ c = 'ú' ∨ c = 'ü' ∨ c = 'û' then (some .E, false)
  else if c = 'y' then
    (if isFirst = true then (some .D, false) else (some .H, false))
  else (some .A, false)

/-- The per-word character loop of textToPhonemes, with the word length
fixed and i the current index. -/
def wordPhonemesAux (wordLen : Nat) : List Char → Nat → List PhonemeType
  | [], _ => []
  | [c], i =>
    match scanChar c none true (i == 0) wordLen with
    | (some p, _) => [p]
    | (none, _) => []
  | c :: next :: rest2, i =>
    match scanChar c (some next) false (i == 0) wordLen with
    | (some p, true) => p :: wordPhonemesAux wordLen rest2 (i + 2)
    | (some p, false) => p :: wordPhonemesAux wordLen (next :: rest2) (i + 1)
    | (none, _) => wordPhonemesAux wordLen (next :: rest2) (i + 1)

/-- All phonemes textToPhonemes derives from one word. -/
def wordPhonemes (word : List Char) : List PhonemeType :=
  wordPhonemesAux word.length word 0

/-- The outer words.forEach of textToPhonemes: X between words only. -/
def joinPhonemesWithSilence : List (List Char) → List PhonemeType
  | [] => []
  | [w] => wordPhonemes w
  | w :: v :: rest =>
      wordPhonemes w ++ PhonemeType.X :: joinPhonemesWithSilence (v :: rest)

/-- textToPhonemes of phonemeSync.ts. -/
def textToPhonemes (text : List Char) : List PhonemeType :=
  joinPhonemesWithSilence (splitOnWhitespace (toLowerText text))

/-! ### Structural predicate used by the timeline claims -/

/-- The entries of a timeline are contiguous starting at t: each entry
starts where the previous one ended. -/
def contiguousFrom : Nat → List PhonemeTimelineEntry → Prop
  | _, [] => True
  | t, e :: es => e.startTime = t ∧ contiguousFrom (t + e.duration) es

/-! ### PhonemeSyncManager state model (src/utils/phonemeSync.ts)

The class fields become a record; a listener is identified by a Nat and a
notification is the pair (listener, variation key). The host's setTimeout
queue is a list of pending timer ids together with a fresh-id counter;
window.setTimeout appends a fresh id, clearTimeout erases one. -/

/-- The mutable fields of the PhonemeSyncManager class. -/
structure ManagerState where
  listeners : List Nat
  currentVariationKey : String
  utterance : Option (List Char)
  timeline : List PhonemeTimelineEntry
  utteranceStartTime : Nat
  playbackInterval : Option Nat
deriving DecidableEq

/-- The manager together with the host scheduler's pending-timer queue. -/
structure EngineWorld where
  mgr : ManagerState
  pendingTimers : List Nat
  nextTimerId : Nat
deriving DecidableEq

/-- notifyListeners: every registered listener is called with the current
variation key, in registry order. -/
def notifyAll (m : ManagerState) : List (Nat × String) :=
  m.listeners.map (fun l => (l, m.currentVariationKey))

/-- setCurrentVariation: store and notify only when the key changed. -/
def setCurrentVariation (m : ManagerState) (key : String) :
    ManagerState × List (Nat × String) :=
  if m.currentVariationKey ≠ key then
    ({ m with currentVariationKey := key },
     notifyAll { m with currentVariationKey := key })
  else (m, [])

/-- subscribe: JS Set.add — appends in insertion order, no duplicates. -/
def subscribe (m : ManagerState) (l : Nat) : ManagerState :=
  if l ∈ m.listeners then m else { m with listeners := m.listeners ++ [l] }

/-- The `if (this.playbackInterval) { clearTimeout(...); ... = null }`
pattern shared by reset and the end/error handlers. -/
def clearPlayback (w : EngineWorld) : EngineWorld :=
  match w.mgr.playbackInterval with
  | some tid =>
      { w with pendingTimers := w.pendingTimers.erase tid,
               mgr := { w.mgr with playbackInterval := none } }
  | none => w

/-- One synchronous run of updateLoop's body at wall-clock time now:
compute elapsed time, look up the variation, publish it, then re-arm by
scheduling a fresh timer and storing its id in playbackInterval. -/
def updateLoopBody (w : EngineWorld) (now : Nat) :
    EngineWorld × List (Nat × String) :=
  let elapsedMs := now - w.mgr.utteranceStartTime
  let key := getCurrentVariationFromTimeline w.mgr.timeline elapsedMs
  let r := setCurrentVariation w.mgr key
  ({ mgr := { r.1 with playbackInterval := some w.nextTimerId },
     pendingTimers := w.pendingTimers ++ [w.nextTimerId],
     nextTimerId := w.nextTimerId + 1 }, r.2)

/-- startPhonemeSimulation: build the timeline from the utterance text,
record the start time, and run updateLoop once immediately. -/
def startPhonemeSimulation (w : EngineWorld) (text : List Char) (now : Nat) :
    EngineWorld × List (Nat × String) :=
  updateLoopBody
    { w with mgr := { w.mgr with
        timeline := buildTimeline (generateNaturalMouthSequence text),
        utteranceStartTime := now } } now

/-- setUtterance: store the utterance and start the simulation. -/
def setUtterance (w : EngineWorld) (text : List Char) (now : Nat) :
    EngineWorld × List (Nat × String) :=
  startPhonemeSimulation
    { w with mgr := { w.mgr with utterance := some text } } text now

/-- The listener installed on the utterance's end event (the error handler
is identical): cancel the pending timer and publish silence. -/
def onUtteranceEnd (w : EngineWorld) : EngineWorld × List (Nat × String) :=
  let w1 := clearPlayback w
  let r := setCurrentVariation w1.mgr "X-hold"
  ({ w1 with mgr := r.1 }, r.2)

/-- reset of phonemeSync.ts: cancel the timer, drop the timeline, publish
silence, drop the utterance. -/
def reset (w : EngineWorld) : EngineWorld × List (Nat × String) :=
  let w1 := clearPlayback w
  let w2 := { w1 with mgr := { w1.mgr with timeline := [] } }
  let r := setCurrentVariation w2.mgr "X-hold"
  ({ w2 with mgr := { r.1 with utterance := none } }, r.2)

/-! ### The tick with possibly-throwing subscriber callbacks

Listener callbacks are external code and may throw; throws l says whether
listener l does. Except carries the state as it is when the exception
escapes (the key is written before notifyListeners runs, and the
setTimeout re-arm line is after the publish, so it is skipped). -/

/-- notifyListeners when callbacks may throw: Set.forEach aborts at the
first throwing callback and the exception propagates. -/
def notifyAllExc (throws : Nat → Bool) (listeners : List Nat) (key : String) :
    Except Unit (List (Nat × String)) :=
  match listeners with
  | [] => Except.ok []
  | l :: rest =>
    if throws l then Except.error ()
    else
      match notifyAllExc throws rest key with
      | Except.error e => Except.error e
      | Except.ok evs => Except.ok ((l, key) :: evs)

/-- setCurrentVariation when callbacks may throw: the key is stored before
the notification loop, so the escaping state already carries the new key. -/
def setCurrentVariationExc (throws : Nat → Bool) (m : ManagerState)
    (key : String) : Except ManagerState (ManagerState × List (Nat × String)) :=
  if m.currentVariationKey ≠ key then
    match notifyAllExc throws m.listeners key with
    | Except.error _ => Except.error { m with currentVariationKey := key }
    | Except.ok evs => Except.ok ({ m with currentVariationKey := key }, evs)
  else Except.ok (m, [])

/-- updateLoop's body when callbacks may throw: there is no try/catch in
the source, so an exception skips the re-arm line and escapes. -/
def updateLoopBodyExc (throws : Nat → Bool) (w : EngineWorld) (now : Nat) :
    Except EngineWorld (EngineWorld × List (Nat × String)) :=
  let elapsedMs := now - w.mgr.utteranceStartTime
  let key := getCurrentVariationFromTimeline w.mgr.timeline elapsedMs
  match setCurrentVariationExc throws w.mgr key with
  | Except.error m => Except.error { w with mgr := m }
  | Except.ok r =>
    Except.ok ({ mgr := { r.1 with playbackInterval := some w.nextTimerId },
                 pendingTimers := w.pendingTimers ++ [w.nextTimerId],
                 nextTimerId := w.nextTimerId + 1 }, r.2)

/-- A subscriber whose callback always throws. -/
def alwaysThrowing : Nat → Bool := fun _ => true

/-- A concrete running engine: one subscriber (id 7), playing the
one-phoneme timeline of A, with timer 3 pending. -/
def runningWorld : EngineWorld :=
  { mgr := { listeners := [7], currentVariationKey := "X-hold",
             utterance := some ['h', 'i'],
             timeline := buildTimeline [PhonemeType.A],
             utteranceStartTime := 0,
             playbackInterval := some 3 },
    pendingTimers := [3], nextTimerId := 4 }

/-- A fresh engine: no subscribers, silence, nothing scheduled. -/
def freshWorld : EngineWorld :=
  { mgr := { listeners := [], currentVariationKey := "X-hold",
             utterance := none, timeline := [],
             utteranceStartTime := 0, playbackInterval := none },
    pendingTimers := [], nextTimerId := 0 }

/-- Sequential setCurrentVariation calls, collecting all notifications. -/
def runSetCalls (m : ManagerState) : List String → ManagerState × List (Nat × String)
  | [] => (m, [])
  | k :: ks =>
    let r := setCurrentVariation m k
    let r2 := runSetCalls r.1 ks
    (r2.1, r.2 ++ r2.2)

/-- The keys listener l receives over a sequence of calls. -/
def listenerStream (m : ManagerState) (ks : List String) (l : Nat) :
    List String :=
  (((runSetCalls m ks).2.filter (fun e => e.1 == l)).map (fun e => e.2))

/-! ### Cross-fade transition (src/components/RealisticAvatar.tsx) -/

/-- TRANSITION_DURATION_MS of RealisticAvatar.tsx. -/
def TRANSITION_DURATION_MS : ℚ := 80

/-- The transitionProgress computation of the draw loop:
`Math.min(elapsedTransitionTime / TRANSITION_DURATION_MS, 1.0)` with
elapsedTransitionTime = now - transitionStart. -/
def transitionProgress (nowMs transitionStartMs : ℚ) : ℚ :=
  min ((nowMs - transitionStartMs) / TRANSITION_DURATION_MS) 1

end KaiserEcho

namespace KaiserEcho

/-- Claim C1: the audio classifier follows the spec's ordered first-match
rule list, and always lands in the closed 6-viseme set. -/
theorem audio_classifier_matches_spec (f : AudioFeatures)
    (h0 : 0 ≤ f.amplitude) (h1 : f.amplitude ≤ 1) (h2 : 0 ≤ f.frequency) :
    getMouthPositionFromAudio f = specAudioRuleList f ∧
    getMouthPositionFromAudio f ∈
      [MouthPosition.X, MouthPosition.A, MouthPosition.B,
       MouthPosition.C, MouthPosition.E, MouthPosition.H] := by
  constructor
  · unfold getMouthPositionFromAudio specAudioRuleList
    split_ifs <;>
      first
        | rfl
        | (exfalso;
           simp only [not_or, not_and_or, not_lt, not_le, gt_iff_lt] at *;
           casesm* _ ∨ _, _ ∧ _ <;> linarith)
  · cases h : getMouthPositionFromAudio f <;> simp

/-- Claim C1 witness: the spec's threshold boundary example,
amplitude 0.6 and frequency 1500 while speaking, classified small-open A. -/
theorem audio_classifier_matches_spec_witness :
    getMouthPositionFromAudio ⟨6/10, 1500, true⟩ =
      specAudioRuleList ⟨6/10, 1500, true⟩ ∧
    getMouthPositionFromAudio ⟨6/10, 1500, true⟩ ∈
      [MouthPosition.X, MouthPosition.A, MouthPosition.B,
       MouthPosition.C, MouthPosition.E, MouthPosition.H] :=
  audio_classifier_matches_spec ⟨6/10, 1500, true⟩
    (by norm_num) (by norm_num) (by norm_num)

/-- Claim C4: after a mouth-position change at t0 the blend progress is the
clamp of (t - t0)/80 to [0,1]: zero at t0, monotone, exactly 1 at t0+80,
never above 1. -/
theorem transition_progress_clamped (t0 t u : ℚ) (ht : t0 ≤ t) (htu : t ≤ u) :
    TRANSITION_DURATION_MS = 80 ∧
    transitionProgress t t0 = max 0 (min ((t - t0) / TRANSITION_DURATION_MS) 1) ∧
    transitionProgress t0 t0 = 0 ∧
    transitionProgress t t0 ≤ transitionProgress u t0 ∧
    transitionProgress (t0 + TRANSITION_DURATION_MS) t0 = 1 ∧
    transitionProgress t t0 ≤ 1 := by
  unfold transitionProgress TRANSITION_DURATION_MS
  refine ⟨rfl, ?_, ?_, ?_, ?_, min_le_right _ _⟩
  · rw [max_eq_right]
    exact le_min (div_nonneg (by linarith) (by norm_num)) zero_le_one
  · rw [sub_self, zero_div]
    norm_num
  · refine min_le_min ?_ le_rfl
    rw [div_le_div_iff_of_pos_right (by norm_num)]
    linarith
  · rw [add_sub_cancel_left, div_self (by norm_num)]
    norm_num

/-- Claim C4 witness: concrete sampling at t0 = 0, t = 40, u = 80. -/
theorem transition_progress_clamped_witness :
    TRANSITION_DURATION_MS = 80 ∧
    transitionProgress 40 0 = max 0 (min ((40 - 0) / TRANSITION_DURATION_MS) 1) ∧
    transitionProgress 0 0 = 0 ∧
    transitionProgress 40 0 ≤ transitionProgress 80 0 ∧
    transitionProgress (0 + TRANSITION_DURATION_MS) 0 = 1 ∧
    transitionProgress 40 0 ≤ 1 :=
  transition_progress_clamped 0 40 80 (by norm_num) (by norm_num)

/-! ### Timeline structure lemmas -/

theorem totalDuration_nil : totalDuration [] = 0 := rfl

theorem totalDuration_cons (e : PhonemeTimelineEntry)
    (es : List PhonemeTimelineEntry) :
    totalDuration (e :: es) = e.duration + totalDuration es := by
  unfold totalDuration
  simp

theorem totalDuration_append (xs ys : List PhonemeTimelineEntry) :
    totalDuration (xs ++ ys) = totalDuration xs + totalDuration ys := by
  unfold totalDuration
  simp

theorem contiguousFrom_append (xs ys : List PhonemeTimelineEntry) :
    ∀ t, contiguousFrom t (xs ++ ys) ↔
      contiguousFrom t xs ∧ contiguousFrom (t + totalDuration xs) ys := by
  induction xs with
  | nil =>
    intro t
    simp [contiguousFrom, totalDuration_nil]
  | cons e es ih =>
    intro t
    show (e.startTime = t ∧ contiguousFrom (t + e.duration) (es ++ ys)) ↔
      (e.startTime = t ∧ contiguousFrom (t + e.duration) es) ∧
        contiguousFrom (t + totalDuration (e :: es)) ys
    rw [ih, totalDuration_cons, ← Nat.add_assoc, and_assoc]

theorem contiguousFrom_phonemeEntries (p : PhonemeType) (t : Nat) :
    contiguousFrom t (phonemeEntries p t) := by
  simp [phonemeEntries, contiguousFrom, Nat.add_assoc]

theorem totalDuration_phonemeEntries (p : PhonemeType) (t : Nat) :
    totalDuration (phonemeEntries p t) = phonemeSpan p := by
  simp [phonemeEntries, totalDuration, phonemeSpan, Nat.add_assoc]

theorem buildTimelineFrom_contiguous (ps : List PhonemeType) :
    ∀ t, contiguousFrom t (buildTimelineFrom ps t) := by
  induction ps with
  | nil => intro t; trivial
  | cons p ps ih =>
    intro t
    unfold buildTimelineFrom
    rw [contiguousFrom_append, totalDuration_phonemeEntries]
    exact ⟨contiguousFrom_phonemeEntries p t, ih _⟩

theorem buildTimelineFrom_length (ps : List PhonemeType) :
    ∀ t, (buildTimelineFrom ps t).length = 3 * ps.length := by
  induction ps with
  | nil => intro t; rfl
  | cons p ps ih =>
    intro t
    unfold buildTimelineFrom
    simp [phonemeEntries, ih]
    ring

theorem buildTimelineFrom_shape (ps : List PhonemeType) :
    ∀ t, (buildTimelineFrom ps t).map
        (fun e => (e.phoneme, e.variation, e.variationKey, e.duration)) =
      ps.flatMap (fun p =>
        [(p, PhonemeVariation.opening, variationKeyOf p .opening,
          (PHONEME_DURATIONS p).opening),
         (p, PhonemeVariation.hold, variationKeyOf p .hold,
          (PHONEME_DURATIONS p).hold),
         (p, PhonemeVariation.closing, variationKeyOf p .closing,
          (PHONEME_DURATIONS p).closing)]) := by
  induction ps with
  | nil => intro t; rfl
  | cons p ps ih =>
    intro t
    unfold buildTimelineFrom
    simp [phonemeEntries, ih]

theorem contiguousFrom_start_le (es : List PhonemeTimelineEntry) :
    ∀ t e, contiguousFrom t es → e ∈ es → t ≤ e.startTime := by
  induction es with
  | nil => intro t e _ he; cases he
  | cons e0 es ih =>
    intro t e hc he
    rcases List.mem_cons.mp he with he | he
    · subst he
      exact le_of_eq hc.1.symm
    · exact le_trans (Nat.le_add_right t e0.duration) (ih _ e hc.2 he)

theorem contiguousFrom_end_le (es : List PhonemeTimelineEntry) :
    ∀ t e, contiguousFrom t es → e ∈ es →
      e.startTime + e.duration ≤ t + totalDuration es := by
  induction es with
  | nil => intro t e _ he; cases he
  | cons e0 es ih =>
    intro t e hc he
    rw [totalDuration_cons, ← Nat.add_assoc]
    rcases List.mem_cons.mp he with he | he
    · subst he
      rw [hc.1]
      exact Nat.le_add_right _ _
    · exact ih _ e hc.2 he

theorem contiguousFrom_chain (es : List PhonemeTimelineEntry) :
    ∀ t, contiguousFrom t es →
      List.Chain' (fun a b => b.startTime = a.startTime + a.duration) es := by
  induction es with
  | nil => intro t _; constructor
  | cons e0 es ih =>
    intro t hc
    cases es with
    | nil => constructor
    | cons e1 es' =>
      refine List.Chain'.cons ?_ (ih _ hc.2)
      rw [hc.2.1, hc.1]

theorem contiguousFrom_getLast (es : List PhonemeTimelineEntry) :
    ∀ t e, contiguousFrom t es → es.getLast? = some e →
      e.startTime + e.duration = t + totalDuration es := by
  induction es with
  | nil => intro t e _ h; cases h
  | cons e0 es ih =>
    intro t e hc hl
    cases es with
    | nil =>
      simp only [List.getLast?_singleton, Option.some.injEq] at hl
      subst hl
      rw [hc.1, totalDuration_cons, totalDuration_nil, Nat.add_zero]
    | cons e1 es' =>
      rw [List.getLast?_cons_cons] at hl
      rw [totalDuration_cons, ← Nat.add_assoc]
      exact ih _ e hc.2 hl

theorem find?_contiguous (es : List PhonemeTimelineEntry) :
    ∀ t x e, contiguousFrom t es → e ∈ es →
      e.startTime ≤ x → x < e.startTime + e.duration →
      es.find? (fun a =>
          decide (a.startTime ≤ x ∧ x < a.startTime + a.duration)) = some e := by
  induction es with
  | nil => intro t x e _ he; cases he
  | cons e0 es ih =>
    intro t x e hc he h1 h2
    by_cases hp : e0.startTime ≤ x ∧ x < e0.startTime + e0.duration
    · have heq : e = e0 := by
        rcases List.mem_cons.mp he with h | h
        · exact h
        · exfalso
          have hs := contiguousFrom_start_le es _ e hc.2 h
          have hx : x < t + e0.duration := hc.1 ▸ hp.2
          omega
      subst heq
      rw [List.find?_cons_of_pos]
      simpa using hp
    · have he' : e ∈ es := by
        rcases List.mem_cons.mp he with h | h
        · exact absurd ⟨h ▸ h1, h ▸ h2⟩ hp
        · exact h
      rw [List.find?_cons_of_neg]
      · exact ih _ x e hc.2 he' h1 h2
      · simpa using hp

theorem find?_past_end (es : List PhonemeTimelineEntry) (t x : Nat)
    (hc : contiguousFrom t es) (hx : t + totalDuration es ≤ x) :
    es.find? (fun a =>
        decide (a.startTime ≤ x ∧ x < a.startTime + a.duration)) = none := by
  rw [List.find?_eq_none]
  intro a ha
  have h1 := contiguousFrom_end_le es t a hc ha
  simp only [decide_eq_true_eq, not_and, not_lt]
  intro _
  omega

theorem buildTimelineFrom_keys (ps : List PhonemeType) :
    ∀ t e, e ∈ buildTimelineFrom ps t →
      e.variationKey = variationKeyOf e.phoneme e.variation := by
  induction ps with
  | nil => intro t e he; cases he
  | cons p ps ih =>
    intro t e he
    unfold buildTimelineFrom at he
    rcases List.mem_append.mp he with h | h
    · simp only [phonemeEntries, List.mem_cons, List.not_mem_nil,
        or_false] at h
      rcases h with h | h | h <;> (subst h; rfl)
    · exact ih _ e h

theorem variationKeyOf_ne_empty (p : PhonemeType) (v : PhonemeVariation) :
    variationKeyOf p v ≠ "" := by
  cases p <;> cases v <;> decide

theorem splitWsAux_ne_nil (s : List Char) :
    ∀ (cur : List Char) (b : Bool), splitWsAux s cur b ≠ [] := by
  induction s with
  | nil => intro cur b; simp [splitWsAux]
  | cons c rest ih =>
    intro cur b
    unfold splitWsAux
    split_ifs <;> first | exact ih _ _ | simp [ih]

theorem wordMouthBlock_ne_nil (w : List Char) : wordMouthBlock w ≠ [] := by
  unfold wordMouthBlock
  have h : syllableCount w = (syllableCount w - 1) + 1 := by
    unfold syllableCount
    omega
  rw [h, List.replicate_succ, List.flatten_cons]
  unfold wordMouthTriple
  simp

theorem joinBlocksWithSilence_ne_nil (ws : List (List Char)) (hne : ws ≠ []) :
    joinBlocksWithSilence ws ≠ [] := by
  match ws with
  | [] => exact absurd rfl hne
  | [w] => exact wordMouthBlock_ne_nil w
  | w :: v :: rest =>
    unfold joinBlocksWithSilence
    simp [wordMouthBlock_ne_nil w]

theorem generateNaturalMouthSequence_ne_nil (text : List Char) :
    generateNaturalMouthSequence text ≠ [] :=
  joinBlocksWithSilence_ne_nil _ (splitWsAux_ne_nil _ _ _)

theorem startPhonemeSimulation_timeline (w : EngineWorld) (text : List Char)
    (now : Nat) :
    (startPhonemeSimulation w text now).1.mgr.timeline =
      buildTimeline (generateNaturalMouthSequence text) := by
  unfold startPhonemeSimulation updateLoopBody setCurrentVariation
  dsimp only
  split_ifs <;> rfl

/-- Claim C2: the built timeline has 3 entries per phoneme, in
opening/hold/closing order with the table durations, starts at 0, is
contiguous, ends at the sum of durations, is non-empty for a (non-empty)
utterance, and rebuilding from the same text overwrites the timeline with
the identical one. -/
theorem timeline_build_invariants (ps : List PhonemeType) (text : List Char)
    (hne : text ≠ []) (w : EngineWorld) (now : Nat) :
    (buildTimeline ps).length = 3 * ps.length ∧
    (buildTimeline ps).map
        (fun e => (e.phoneme, e.variation, e.variationKey, e.duration)) =
      ps.flatMap (fun p =>
        [(p, PhonemeVariation.opening, variationKeyOf p .opening,
          (PHONEME_DURATIONS p).opening),
         (p, PhonemeVariation.hold, variationKeyOf p .hold,
          (PHONEME_DURATIONS p).hold),
         (p, PhonemeVariation.closing, variationKeyOf p .closing,
          (PHONEME_DURATIONS p).closing)]) ∧
    contiguousFrom 0 (buildTimeline ps) ∧
    List.Chain' (fun a b => b.startTime = a.startTime + a.duration)
      (buildTimeline ps) ∧
    (∀ e rest, buildTimeline ps = e :: rest → e.startTime = 0) ∧
    (∀ e, (buildTimeline ps).getLast? = some e →
      e.startTime + e.duration = totalDuration (buildTimeline ps)) ∧
    buildTimeline (generateNaturalMouthSequence text) ≠ [] ∧
    (startPhonemeSimulation (startPhonemeSimulation w text now).1 text
        now).1.mgr.timeline =
      (startPhonemeSimulation w text now).1.mgr.timeline := by
  have hc : contiguousFrom 0 (buildTimeline ps) :=
    buildTimelineFrom_contiguous ps 0
  refine ⟨buildTimelineFrom_length ps 0, buildTimelineFrom_shape ps 0, hc,
    contiguousFrom_chain _ 0 hc, ?_, ?_, ?_, ?_⟩
  · intro e rest h
    rw [h] at hc
    exact hc.1
  · intro e hl
    have := contiguousFrom_getLast _ 0 e hc hl
    omega
  · intro h
    have hlen := buildTimelineFrom_length (generateNaturalMouthSequence text) 0
    rw [show buildTimelineFrom (generateNaturalMouthSequence text) 0 =
          buildTimeline (generateNaturalMouthSequence text) from rfl, h] at hlen
    have : generateNaturalMouthSequence text = [] := by
      cases hg : generateNaturalMouthSequence text with
      | nil => rfl
      | cons a l => rw [hg] at hlen; simp at hlen
    exact generateNaturalMouthSequence_ne_nil text this
  · rw [startPhonemeSimulation_timeline, startPhonemeSimulation_timeline]

/-- Claim C2 witness: the single-word utterance "hi" yields a non-empty
timeline. -/
theorem timeline_build_invariants_witness :
    ['h', 'i'] ≠ ([] : List Char) ∧
    buildTimeline (generateNaturalMouthSequence ['h', 'i']) ≠ [] :=
  ⟨by decide,
   (timeline_build_invariants [PhonemeType.A] ['h', 'i'] (by decide)
      freshWorld 0).2.2.2.2.2.2.1⟩

/-- Claim C3: the timeline lookup returns the variation key of the entry
whose half-open interval contains the elapsed time, and the silence key
"X-hold" for any time at or past the total duration; it is a total
function. -/
theorem timeline_lookup_total (ps : List PhonemeType) (x : Nat) :
    (∀ e ∈ buildTimeline ps, e.startTime ≤ x → x < e.startTime + e.duration →
      getCurrentVariationFromTimeline (buildTimeline ps) x = e.variationKey) ∧
    (totalDuration (buildTimeline ps) ≤ x →
      getCurrentVariationFromTimeline (buildTimeline ps) x = "X-hold") := by
  constructor
  · intro e he h1 h2
    unfold getCurrentVariationFromTimeline
    rw [find?_contiguous (buildTimeline ps) 0 x e
      (buildTimelineFrom_contiguous ps 0) he h1 h2]
    show (if e.variationKey = "" then "X-hold" else e.variationKey) =
      e.variationKey
    rw [if_neg]
    rw [buildTimelineFrom_keys ps 0 e he]
    exact variationKeyOf_ne_empty _ _
  · intro hx
    unfold getCurrentVariationFromTimeline
    rw [find?_past_end (buildTimeline ps) 0 x
      (buildTimelineFrom_contiguous ps 0) (by omega)]

/-- Claim C3 witness: on the timeline of the single phoneme A, time 0 is
inside the opening entry and time 130 is the clamped end state. -/
theorem timeline_lookup_total_witness :
    getCurrentVariationFromTimeline (buildTimeline [PhonemeType.A]) 0 =
      "A-opening" ∧
    getCurrentVariationFromTimeline (buildTimeline [PhonemeType.A]) 130 =
      "X-hold" := by
  constructor
  · exact (timeline_lookup_total [PhonemeType.A] 0).1
      ⟨PhonemeType.A, PhonemeVariation.opening, "A-opening", 0, 35⟩
      (by decide) (by decide) (by decide)
  · exact (timeline_lookup_total [PhonemeType.A] 130).2 (by decide)

theorem joinBlocks_eq_intercalate (ws : List (List Char)) :
    joinBlocksWithSilence ws =
      List.intercalate [PhonemeType.X] (ws.map wordMouthBlock) := by
  induction ws with
  | nil => rfl
  | cons w ws ih =>
    cases ws with
    | nil => simp [joinBlocksWithSilence, List.intercalate]
    | cons v rest =>
      show wordMouthBlock w ++
          PhonemeType.X :: joinBlocksWithSilence (v :: rest) = _
      rw [ih]
      simp [List.intercalate, List.intersperse_cons_cons]

theorem joinPhonemes_eq_intercalate (ws : List (List Char)) :
    joinPhonemesWithSilence ws =
      List.intercalate [PhonemeType.X] (ws.map wordPhonemes) := by
  induction ws with
  | nil => rfl
  | cons w ws ih =>
    cases ws with
    | nil => simp [joinPhonemesWithSilence, List.intercalate]
    | cons v rest =>
      show wordPhonemes w ++
          PhonemeType.X :: joinPhonemesWithSilence (v :: rest) = _
      rw [ih]
      simp [List.intercalate, List.intersperse_cons_cons]

theorem x_not_mem_wordMouthBlock (w : List Char) :
    PhonemeType.X ∉ wordMouthBlock w := by
  intro hx
  unfold wordMouthBlock at hx
  rw [List.mem_flatten] at hx
  obtain ⟨l, hl, hxl⟩ := hx
  rw [List.mem_replicate] at hl
  rw [hl.2] at hxl
  unfold wordMouthTriple at hxl
  simp only [List.mem_cons, List.not_mem_nil, or_false] at hxl
  rcases hxl with h | h | h <;>
    first
      | (split_ifs at h <;> simp_all)
      | simp_all

theorem scanChar_fst_ne_X (c : Char) (nextChar : Option Char)
    (isLast isFirst : Bool) (wordLen : Nat) :
    (scanChar c nextChar isLast isFirst wordLen).1 ≠ some PhonemeType.X := by
  unfold scanChar
  by_cases h1 : c = 'm' ∨ c = 'b' ∨ c = 'p'
  · rw [if_pos h1]; decide
  rw [if_neg h1]
  by_cases h2 : c = 'f' ∨ c = 'v'
  · rw [if_pos h2]; decide
  rw [if_neg h2]
  by_cases h3 : c = 't' ∧ nextChar = some 'h'
  · rw [if_pos h3]; decide
  rw [if_neg h3]
  by_cases h4 : (c = 't' ∨ c = 'd' ∨ c = 'k' ∨ c = 'g') ∧ nextChar ≠ some 'h'
  · rw [if_pos h4]; decide
  rw [if_neg h4]
  by_cases h5 : c = 's' ∨ c = 'z' ∨ c = 'x' ∨ c = 'c' ∨ c = 'j' ∨ c = 'q'
  · rw [if_pos h5]; decide
  rw [if_neg h5]
  by_cases h6 : c = 'l' ∨ c = 'r'
  · rw [if_pos h6]; decide
  rw [if_neg h6]
  by_cases h7 : c = 'n'
  · rw [if_pos h7]; decide
  rw [if_neg h7]
  by_cases h8 : c = 'w'
  · rw [if_pos h8]; decide
  rw [if_neg h8]
  by_cases h9 : c = 'o' ∧ (nextChar = some 'o' ∨ nextChar = some 'u')
  · rw [if_pos h9]; decide
  rw [if_neg h9]
  by_cases h10 : c = 'a' ∧ nextChar = some 'a'
  · rw [if_pos h10]; decide
  rw [if_neg h10]
  by_cases h11 : c = 'e' ∧ nextChar = some 'e'
  · rw [if_pos h11]; decide
  rw [if_neg h11]
  by_cases h12 : c = 'a' ∨ c = 'á' ∨ c = 'ä' ∨ c = 'æ'
  · rw [if_pos h12]; decide
  rw [if_neg h12]
  by_cases h13 : c = 'e' ∨ c = 'é' ∨ c = 'ë' ∨ c = 'ê'
  · rw [if_pos h13]
    by_cases hh : isLast = true ∧ wordLen > 2
    · rw [if_pos hh]; decide
    · rw [if_neg hh]; decide
  rw [if_neg h13]
  by_cases h14 : c = 'i' ∨ c = 'í' ∨ c = 'ï' ∨ c = 'î'
  · rw [if_pos h14]; decide
  rw [if_neg h14]
  by_cases h15 : c = 'o' ∨ c = 'ó' ∨ c = 'ö' ∨ c = 'ô'
  · rw [if_pos h15]; decide
  rw [if_neg h15]
  by_cases h16 : c = 'u' ∨ c = 'ú' ∨ c = 'ü' ∨ c = 'û'
  · rw [if_pos h16]; decide
  rw [if_neg h16]
  by_cases h17 : c = 'y'
  · rw [if_pos h17]
    by_cases hh : isFirst = true
    · rw [if_pos hh]; decide
    · rw [if_neg hh]; decide
  rw [if_neg h17]
  decide

theorem scanChar_ne_X (c : Char) (nextChar : Option Char)
    (isLast isFirst : Bool) (wordLen : Nat) (p : PhonemeType) (sk : Bool)
    (h : scanChar c nextChar isLast isFirst wordLen = (some p, sk)) :
    p ≠ PhonemeType.X := by
  intro hp
  subst hp
  exact scanChar_fst_ne_X c nextChar isLast isFirst wordLen (by rw [h])

theorem x_not_mem_wordPhonemesAux (k : Nat) :
    ∀ (l : List Char) (n i : Nat), l.length ≤ k →
      PhonemeType.X ∉ wordPhonemesAux n l i := by
  induction k with
  | zero =>
    intro l n i hl
    have h0 : l = [] := List.length_eq_zero.mp (Nat.le_zero.mp hl)
    subst h0
    simp [wordPhonemesAux]
  | succ k ih =>
    intro l n i hl
    match l with
    | [] => simp [wordPhonemesAux]
    | [c] =>
      show PhonemeType.X ∉ wordPhonemesAux n [c] i
      unfold wordPhonemesAux
      cases hsc : scanChar c none true (i == 0) n with
      | mk fst snd =>
        cases fst with
        | some p =>
          simp only [List.mem_singleton]
          intro hxp
          exact scanChar_ne_X _ _ _ _ _ _ _ hsc hxp.symm
        | none => simp
    | c :: next :: rest2 =>
      show PhonemeType.X ∉ wordPhonemesAux n (c :: next :: rest2) i
      have hlen2 : rest2.length ≤ k := by
        simp only [List.length_cons] at hl
        omega
      have hlen1 : (next :: rest2).length ≤ k := by
        simp only [List.length_cons] at hl ⊢
        omega
      unfold wordPhonemesAux
      cases hsc : scanChar c (some next) false (i == 0) n with
      | mk fst snd =>
        cases fst with
        | some p =>
          cases snd with
          | true =>
            simp only [List.mem_cons, not_or]
            exact ⟨fun hxp => scanChar_ne_X _ _ _ _ _ _ _ hsc hxp.symm,
                   ih rest2 n (i + 2) hlen2⟩
          | false =>
            simp only [List.mem_cons, not_or]
            exact ⟨fun hxp => scanChar_ne_X _ _ _ _ _ _ _ hsc hxp.symm,
                   ih (next :: rest2) n (i + 1) hlen1⟩
        | none => exact ih (next :: rest2) n (i + 1) hlen1

theorem x_not_mem_wordPhonemes (w : List Char) :
    PhonemeType.X ∉ wordPhonemes w :=
  x_not_mem_wordPhonemesAux w.length w w.length 0 le_rfl

/-- Claim C8: in both text-driven generators the silence symbol X appears
only as the separator inserted between two consecutive words, never inside
a word's phonemes; in particular the single-word utterance "hi" produces
[A, H, A] with no trailing silence. -/
theorem silence_only_between_words (text : List Char) :
    generateNaturalMouthSequence text =
      List.intercalate [PhonemeType.X]
        ((splitOnWhitespace (toLowerText text)).map wordMouthBlock) ∧
    (∀ w : List Char, PhonemeType.X ∉ wordMouthBlock w) ∧
    textToPhonemes text =
      List.intercalate [PhonemeType.X]
        ((splitOnWhitespace (toLowerText text)).map wordPhonemes) ∧
    (∀ w : List Char, PhonemeType.X ∉ wordPhonemes w) ∧
    ((splitOnWhitespace (toLowerText text)).length = 1 →
      PhonemeType.X ∉ generateNaturalMouthSequence text) ∧
    generateNaturalMouthSequence ['h', 'i'] =
      [PhonemeType.A, PhonemeType.H, PhonemeType.A] := by
  refine ⟨joinBlocks_eq_intercalate _, x_not_mem_wordMouthBlock,
    joinPhonemes_eq_intercalate _, x_not_mem_wordPhonemes, ?_, by decide⟩
  intro h1 hx
  obtain ⟨w, hw⟩ := List.length_eq_one.mp h1
  unfold generateNaturalMouthSequence at hx
  rw [hw] at hx
  exact x_not_mem_wordMouthBlock w hx

/-- Claim C8 witness: the single-word utterance "hi" gets no silence
entry. -/
theorem silence_only_between_words_witness :
    PhonemeType.X ∉ generateNaturalMouthSequence ['h', 'i'] :=
  (silence_only_between_words ['h', 'i']).2.2.2.2.1 (by decide)


/-! ### Manager state theorems -/

theorem setCurrentVariation_listeners (m : ManagerState) (k : String) :
    (setCurrentVariation m k).1.listeners = m.listeners := by
  unfold setCurrentVariation
  split_ifs <;> rfl

theorem filter_listener_events (L : List Nat) (l : Nat) (k : String)
    (hnd : L.Nodup) (hl : l ∈ L) :
    (L.map (fun x => (x, k))).filter (fun e => e.1 == l) = [(l, k)] := by
  induction L with
  | nil => cases hl
  | cons a L ih =>
    rw [List.nodup_cons] at hnd
    simp only [List.map_cons, List.filter_cons]
    by_cases hal : a = l
    · subst hal
      have hrest : (L.map (fun x => (x, k))).filter (fun e => e.1 == a) = [] := by
        rw [List.filter_eq_nil_iff]
        intro e he
        obtain ⟨x, hx, hxe⟩ := List.mem_map.mp he
        subst hxe
        simp only [beq_iff_eq]
        intro hxa
        exact hnd.1 (hxa ▸ hx)
      simp [hrest]
    · have hlL : l ∈ L := by
        rcases List.mem_cons.mp hl with h | h
        · exact absurd h.symm hal
        · exact h
      simp only [beq_iff_eq, hal, if_neg]
      simpa [hal] using ih hnd.2 hlL

theorem listenerStream_nil (m : ManagerState) (l : Nat) :
    listenerStream m [] l = [] := rfl

theorem runSetCalls_cons (m : ManagerState) (k : String) (ks : List String) :
    runSetCalls m (k :: ks) =
      ((runSetCalls (setCurrentVariation m k).1 ks).1,
       (setCurrentVariation m k).2 ++
         (runSetCalls (setCurrentVariation m k).1 ks).2) := rfl

theorem listenerStream_cons (m : ManagerState) (k : String) (ks : List String)
    (l : Nat) :
    listenerStream m (k :: ks) l =
      (((setCurrentVariation m k).2.filter (fun e => e.1 == l)).map
        (fun e => e.2)) ++ listenerStream (setCurrentVariation m k).1 ks l := by
  unfold listenerStream
  rw [runSetCalls_cons]
  simp [List.filter_append]

theorem listenerStream_sound (ks : List String) :
    ∀ (m : ManagerState) (l : Nat), m.listeners.Nodup → l ∈ m.listeners →
      (∀ x, (listenerStream m ks l).head? = some x →
        x ≠ m.currentVariationKey) ∧
      List.Chain' (fun a b => a ≠ b) (listenerStream m ks l) := by
  induction ks with
  | nil =>
    intro m l _ _
    refine ⟨fun x h => ?_, List.chain'_nil⟩
    rw [listenerStream_nil] at h
    cases h
  | cons k ks ih =>
    intro m l hnd hl
    by_cases hk : m.currentVariationKey ≠ k
    · have hev : (setCurrentVariation m k).2 =
          m.listeners.map (fun x => (x, k)) := by
        unfold setCurrentVariation notifyAll
        rw [if_pos hk]
      have hst : (setCurrentVariation m k).1 =
          { m with currentVariationKey := k } := by
        unfold setCurrentVariation
        rw [if_pos hk]
      have hstream : listenerStream m (k :: ks) l =
          k :: listenerStream (setCurrentVariation m k).1 ks l := by
        rw [listenerStream_cons, hev,
          filter_listener_events m.listeners l k hnd hl]
        rfl
      have ihm := ih (setCurrentVariation m k).1 l
        (by rw [setCurrentVariation_listeners]; exact hnd)
        (by rw [setCurrentVariation_listeners]; exact hl)
      constructor
      · intro x hx
        rw [hstream] at hx
        simp only [List.head?_cons, Option.some.injEq] at hx
        subst hx
        exact fun h => hk h.symm
      · rw [hstream, List.chain'_cons']
        refine ⟨?_, ihm.2⟩
        intro y hy
        have hne := ihm.1 y hy
        rw [hst] at hne
        exact fun h => hne (h ▸ rfl)
    · push_neg at hk
      have hsc : setCurrentVariation m k = (m, []) := by
        unfold setCurrentVariation
        rw [if_neg]
        simp [hk]
      have hstream : listenerStream m (k :: ks) l = listenerStream m ks l := by
        rw [listenerStream_cons, hsc]
        rfl
      rw [hstream]
      exact ih m l hnd hl

/-- Claim C10: setCurrentVariation is a no-op when the key is unchanged; on
a change it stores the key and notifies every registered listener exactly
once with it; hence over any call sequence no listener ever receives the
same key twice in a row. -/
theorem notify_only_on_change (m : ManagerState) (k : String) (l : Nat)
    (hnd : m.listeners.Nodup) (hl : l ∈ m.listeners) (ks : List String) :
    (k = m.currentVariationKey → setCurrentVariation m k = (m, [])) ∧
    (k ≠ m.currentVariationKey →
      (setCurrentVariation m k).1.currentVariationKey = k ∧
      (setCurrentVariation m k).2.filter (fun e => e.1 == l) = [(l, k)]) ∧
    List.Chain' (fun a b => a ≠ b) (listenerStream m ks l) := by
  refine ⟨?_, ?_, (listenerStream_sound ks m l hnd hl).2⟩
  · intro h
    unfold setCurrentVariation
    rw [if_neg]
    simp [h]
  · intro h
    have hk : m.currentVariationKey ≠ k := fun hh => h hh.symm
    constructor
    · unfold setCurrentVariation
      rw [if_pos hk]
    · have hev : (setCurrentVariation m k).2 =
          m.listeners.map (fun x => (x, k)) := by
        unfold setCurrentVariation notifyAll
        rw [if_pos hk]
      rw [hev]
      exact filter_listener_events m.listeners l k hnd hl

/-- Claim C10 witness: one subscriber (id 7), a change to "A-hold", then
the call sequence "A-hold", "A-hold", "B-hold". -/
theorem notify_only_on_change_witness :
    ("A-hold" = runningWorld.mgr.currentVariationKey →
      setCurrentVariation runningWorld.mgr "A-hold" = (runningWorld.mgr, [])) ∧
    ("A-hold" ≠ runningWorld.mgr.currentVariationKey →
      (setCurrentVariation runningWorld.mgr "A-hold").1.currentVariationKey =
        "A-hold" ∧
      (setCurrentVariation runningWorld.mgr "A-hold").2.filter
        (fun e => e.1 == 7) = [(7, "A-hold")]) ∧
    List.Chain' (fun a b => a ≠ b)
      (listenerStream runningWorld.mgr ["A-hold", "A-hold", "B-hold"] 7) :=
  notify_only_on_change runningWorld.mgr "A-hold" 7 (by decide) (by decide)
    ["A-hold", "A-hold", "B-hold"]

/-- What one reset produces, for any starting state. -/
theorem reset_fst (w : EngineWorld) :
    (reset w).1 =
      { mgr := { listeners := w.mgr.listeners,
                 currentVariationKey := "X-hold",
                 utterance := none, timeline := [],
                 utteranceStartTime := w.mgr.utteranceStartTime,
                 playbackInterval := none },
        pendingTimers :=
          (match w.mgr.playbackInterval with
           | some tid => w.pendingTimers.erase tid
           | none => w.pendingTimers),
        nextTimerId := w.nextTimerId } := by
  unfold reset clearPlayback setCurrentVariation
  cases h : w.mgr.playbackInterval <;> (dsimp only; split_ifs <;> simp_all)

/-- Claim C9: reset is idempotent — a second reset changes nothing and
emits no notification — and the state after one reset is the Idle state:
empty timeline, no pending playback callback, no utterance, silence key. -/
theorem reset_idempotent (w : EngineWorld) :
    (reset (reset w).1).1 = (reset w).1 ∧
    (reset (reset w).1).2 = [] ∧
    (reset w).1.mgr.timeline = [] ∧
    (reset w).1.mgr.playbackInterval = none ∧
    (reset w).1.mgr.utterance = none ∧
    (reset w).1.mgr.currentVariationKey = "X-hold" := by
  refine ⟨?_, ?_, ?_, ?_, ?_, ?_⟩
  · rw [reset_fst w, reset_fst]
  · rw [reset_fst w]
    unfold reset clearPlayback setCurrentVariation
    simp
  · rw [reset_fst w]
  · rw [reset_fst w]
  · rw [reset_fst w]
  · rw [reset_fst w]


/-! ### Failure and cancellation behavior (claims C5, C6, C7) -/

/-- Running the throw-aware tick with no throwing listener agrees with the
plain tick. -/
theorem updateLoopBodyExc_no_throw (w : EngineWorld) (now : Nat) :
    updateLoopBodyExc (fun _ => false) w now =
      Except.ok (updateLoopBody w now) := by
  unfold updateLoopBodyExc updateLoopBody setCurrentVariationExc
    setCurrentVariation
  have hall : ∀ (L : List Nat) (key : String),
      notifyAllExc (fun _ => false) L key =
        Except.ok (L.map (fun x => (x, key))) := by
    intro L key
    induction L with
    | nil => rfl
    | cons a L ih =>
      unfold notifyAllExc
      rw [ih]
      rfl
  dsimp only
  split_ifs with h
  · rw [hall]
    rfl
  · rfl

/-- Claim C5, amended behavior: when a listener throws during a tick, the
exception escapes updateLoop uncaught — the re-arm line is skipped (no new
timer, counters unchanged), playbackInterval is not cleared, the timeline
is kept, and the escaped state carries the freshly computed key, which was
stored before the notification loop ran. -/
theorem tick_throw_escapes (throws : Nat → Bool) (w : EngineWorld)
    (now : Nat) (wErr : EngineWorld)
    (h : updateLoopBodyExc throws w now = Except.error wErr) :
    wErr.pendingTimers = w.pendingTimers ∧
    wErr.nextTimerId = w.nextTimerId ∧
    wErr.mgr.playbackInterval = w.mgr.playbackInterval ∧
    wErr.mgr.timeline = w.mgr.timeline ∧
    wErr.mgr.currentVariationKey =
      getCurrentVariationFromTimeline w.mgr.timeline
        (now - w.mgr.utteranceStartTime) := by
  unfold updateLoopBodyExc at h
  dsimp only at h
  cases hsc : setCurrentVariationExc throws w.mgr
      (getCurrentVariationFromTimeline w.mgr.timeline
        (now - w.mgr.utteranceStartTime)) with
  | ok r =>
    rw [hsc] at h
    simp at h
  | error m =>
    rw [hsc] at h
    replace h : Except.error { w with mgr := m } = Except.error wErr := h
    injection h with h3
    have hw : wErr = { w with mgr := m } := h3.symm
    unfold setCurrentVariationExc at hsc
    split_ifs at hsc with hkey
    · cases hn : notifyAllExc throws w.mgr.listeners
          (getCurrentVariationFromTimeline w.mgr.timeline
            (now - w.mgr.utteranceStartTime)) with
      | ok evs =>
        rw [hn] at hsc
        simp at hsc
      | error e =>
        rw [hn] at hsc
        replace hsc : Except.error
            ({ w.mgr with
               currentVariationKey :=
                 getCurrentVariationFromTimeline w.mgr.timeline
                   (now - w.mgr.utteranceStartTime) } : ManagerState) =
            Except.error m := hsc
        injection hsc with h4
        have hm : m = { w.mgr with
            currentVariationKey :=
              getCurrentVariationFromTimeline w.mgr.timeline
                (now - w.mgr.utteranceStartTime) } := h4.symm
        subst hw hm
        exact ⟨rfl, rfl, rfl, rfl, rfl⟩

/-- Claim C5 counterexample: a throwing subscriber on a running engine.
The tick neither catches the exception nor publishes silence nor goes
Idle: the result is an error whose state still has the non-silence key
"A-opening", the stale playbackInterval 3 and the untouched timer queue. -/
theorem tick_throw_not_caught_cex :
    (match updateLoopBodyExc alwaysThrowing runningWorld 0 with
     | Except.error w =>
        some (w.mgr.currentVariationKey, w.mgr.playbackInterval,
          w.pendingTimers)
     | Except.ok _ => none) =
      some ("A-opening", some 3, [3]) ∧
    "A-opening" ≠ "X-hold" := by
  constructor
  · rfl
  · decide

/-- Claim C5 witness (for the amended theorem): the concrete throwing run
of the counterexample state. -/
theorem tick_throw_escapes_witness :
    ({ runningWorld with mgr := { runningWorld.mgr with
        currentVariationKey := "A-opening" } } : EngineWorld).pendingTimers =
      runningWorld.pendingTimers ∧
    ({ runningWorld with mgr := { runningWorld.mgr with
        currentVariationKey := "A-opening" } } : EngineWorld).nextTimerId =
      runningWorld.nextTimerId ∧
    ({ runningWorld with mgr := { runningWorld.mgr with
        currentVariationKey := "A-opening" } } : EngineWorld).mgr.playbackInterval =
      runningWorld.mgr.playbackInterval ∧
    ({ runningWorld with mgr := { runningWorld.mgr with
        currentVariationKey := "A-opening" } } : EngineWorld).mgr.timeline =
      runningWorld.mgr.timeline ∧
    ({ runningWorld with mgr := { runningWorld.mgr with
        currentVariationKey := "A-opening" } } : EngineWorld).mgr.currentVariationKey =
      getCurrentVariationFromTimeline runningWorld.mgr.timeline
        (0 - runningWorld.mgr.utteranceStartTime) :=
  tick_throw_escapes alwaysThrowing runningWorld 0
    { runningWorld with mgr := { runningWorld.mgr with
        currentVariationKey := "A-opening" } } (by rfl)

/-- Claim C6, amended behavior: setUtterance performs no implicit stop —
whatever was pending stays pending, one fresh timer is appended, and
playbackInterval is overwritten with the fresh id, orphaning any previous
one. -/
theorem setUtterance_appends_timer (w : EngineWorld) (text : List Char)
    (now : Nat) :
    (setUtterance w text now).1.pendingTimers =
      w.pendingTimers ++ [w.nextTimerId] ∧
    (setUtterance w text now).1.nextTimerId = w.nextTimerId + 1 ∧
    (setUtterance w text now).1.mgr.playbackInterval = some w.nextTimerId := by
  unfold setUtterance startPhonemeSimulation updateLoopBody
    setCurrentVariation
  dsimp only
  exact ⟨rfl, rfl, rfl⟩

/-- Claim C6 counterexample: attaching a second utterance while the first
loop is active leaves TWO pending tick callbacks — the first one (timer 0)
is never cancelled, so the old loop's stray tick can still fire. -/
theorem setUtterance_no_implicit_stop_cex :
    ((setUtterance ((setUtterance freshWorld ['h', 'i'] 0).1)
        ['h', 'i'] 50).1).pendingTimers = [0, 1] ∧
    ¬ ((setUtterance ((setUtterance freshWorld ['h', 'i'] 0).1)
        ['h', 'i'] 50).1).pendingTimers.length ≤ 1 := by
  constructor
  · rfl
  · decide

/-- Claim C7, amended behavior: the utterance end/error handler cancels
the pending tick (clears playbackInterval and removes its timer from the
queue) and publishes silence, but discards neither the timeline nor the
utterance reference — both survive until reset() is called. -/
theorem utterance_end_keeps_timeline (w : EngineWorld) :
    (onUtteranceEnd w).1.mgr.playbackInterval = none ∧
    (onUtteranceEnd w).1.mgr.currentVariationKey = "X-hold" ∧
    (onUtteranceEnd w).1.mgr.timeline = w.mgr.timeline ∧
    (onUtteranceEnd w).1.mgr.utterance = w.mgr.utterance ∧
    (onUtteranceEnd w).1.pendingTimers =
      (match w.mgr.playbackInterval with
       | some tid => w.pendingTimers.erase tid
       | none => w.pendingTimers) := by
  unfold onUtteranceEnd clearPlayback setCurrentVariation
  cases h : w.mgr.playbackInterval <;> (dsimp only; split_ifs <;> simp_all)

/-- Claim C7 counterexample: after natural completion of the utterance
"hi", the timeline is still present and the utterance is still attached —
they are not discarded. -/
theorem utterance_end_discards_nothing_cex :
    (onUtteranceEnd (setUtterance freshWorld ['h', 'i'] 0).1).1.mgr.timeline
      ≠ [] ∧
    (onUtteranceEnd (setUtterance freshWorld ['h', 'i'] 0).1).1.mgr.utterance
      = some ['h', 'i'] := by
  constructor
  · decide
  · rfl

end KaiserEcho
